import Mathlib

/-!
Shallow embedding of the queue core of the `rq` repository (`src/rq/queue.py`),
together with theorems settling the frozen claims about it.

The Store (Redis) is modelled as an explicit state record holding the job
records, the FIFO lists, the deferred set, the queue-registry set and the
per-job reverse-dependency sets.  Every operation of `queue.py` becomes a pure
function threading this state; fallible operations return `Except RQError`.
-/

namespace RQ

/-- Modelled from the spec: the job status enum (`rq/job.py` is not among the
sources).  Spec section 3: `status: enum (QUEUED, FINISHED, FAILED, DEFERRED,
STARTED)`. -/
inductive Status where
  | queued
  | finished
  | failed
  | deferred
  | started
deriving DecidableEq, Repr

/-- Modelled from the spec: the Job Record (`rq/job.py` is not among the
sources).  Fields are the typed metadata of spec section 3 that the queue core
reads or writes; the opaque payload is irrelevant to the claims and omitted.
`dependencies` is the ordered set of parent job IDs. -/
structure Job where
  id : String
  status : Status
  origin : Option String
  enqueuedAt : Option Nat
  endedAt : Option Nat
  excInfo : Option String
  timeout : Option Nat
  dependencies : List String
deriving DecidableEq, Repr

/-- The error taxonomy of `rq/exceptions.py` as used by `queue.py`, plus the
built-in Python errors the code raises (`ValueError`, `TypeError`). -/
inductive RQError where
  | noSuchJob : String → RQError
  | invalidJobOperation : String → RQError
  | dequeueTimeout : Nat → List String → RQError
  | valueError : String → RQError
  | typeError : String → RQError
deriving DecidableEq, Repr

/-- Decidable equality of `Except` results, for evaluating the operations on
concrete inputs. -/
instance {ε α : Type} [DecidableEq ε] [DecidableEq α] :
    DecidableEq (Except ε α) := fun a b =>
  match a, b with
  | .error e, .error e' =>
      if h : e = e' then isTrue (by rw [h]) else isFalse (by intro hc; cases hc; exact h rfl)
  | .ok v, .ok v' =>
      if h : v = v' then isTrue (by rw [h]) else isFalse (by intro hc; cases hc; exact h rfl)
  | .error _, .ok _ => isFalse (by intro hc; cases hc)
  | .ok _, .error _ => isFalse (by intro hc; cases hc)

/-- Association-list lookup by key (string-keyed Redis namespace). -/
def alGet {α : Type} (m : List (String × α)) (k : String) : Option α :=
  match m with
  | [] => none
  | (k', v) :: rest => if k' = k then some v else alGet rest k

/-- Association-list update or insert. -/
def alSet {α : Type} (m : List (String × α)) (k : String) (v : α) :
    List (String × α) :=
  match m with
  | [] => [(k, v)]
  | (k', v') :: rest => if k' = k then (k, v) :: rest else (k', v') :: alSet rest k v

/-- Association-list key deletion. -/
def alDel {α : Type} (m : List (String × α)) (k : String) : List (String × α) :=
  match m with
  | [] => []
  | (k', v) :: rest => if k' = k then alDel rest k else (k', v) :: alDel rest k

/-- The Store state: job records keyed by job ID (the hashes at the
`rq:job:` keys), Redis lists keyed by their full Redis key, the `rq:deferred`
set, the `rq:queues` registry set, and the reverse-dependency sets keyed by
the parent job ID (the `rq:job:<id>:dependents` keys). -/
structure RedisState where
  jobs : List (String × Job)
  lists : List (String × List String)
  deferredSet : List String
  queuesKeys : List String
  dependents : List (String × List String)
deriving DecidableEq, Repr

/-- `Job.fetch` / `Job.exists`: read a job record from the Store (modelled
from the spec, section 3: the record "mediates all reads/writes of a job's
fields through the Store"). -/
def getJob (st : RedisState) (id : String) : Option Job :=
  alGet st.jobs id

/-- `job.save()`: persist a job record under its ID (modelled from the spec,
section 3). -/
def saveJob (st : RedisState) (j : Job) : RedisState :=
  { st with jobs := alSet st.jobs j.id j }

/-- Contents of a Redis list; a missing key is the empty list (Redis deletes
empty lists). -/
def getListD (st : RedisState) (k : String) : List String :=
  (alGet st.lists k).getD []

/-- Write a Redis list, deleting the key when the list becomes empty, as
Redis does. -/
def setListKey (st : RedisState) (k : String) (l : List String) : RedisState :=
  if l = [] then { st with lists := alDel st.lists k }
  else { st with lists := alSet st.lists k l }

/-- Redis `RPUSH key v`. -/
def rpush (st : RedisState) (k : String) (v : String) : RedisState :=
  setListKey st k (getListD st k ++ [v])

/-- Redis `SADD` on a set represented as a duplicate-free list. -/
def saddL (s : List String) (v : String) : List String :=
  if v ∈ s then s else s ++ [v]

/-- Redis `SREM` of a single member: returns the number of members removed
(0 or 1 for a set) and the new set. -/
def sremL (s : List String) (v : String) : Nat × List String :=
  if v ∈ s then (1, s.filter (fun x => x ≠ v)) else (0, s)

/-- Reverse-dependency set of a parent job ID. -/
def getDependents (st : RedisState) (pid : String) : List String :=
  (alGet st.dependents pid).getD []

/-- Write a reverse-dependency set, deleting the key when empty. -/
def setDependents (st : RedisState) (pid : String) (l : List String) : RedisState :=
  if l = [] then { st with dependents := alDel st.dependents pid }
  else { st with dependents := alSet st.dependents pid l }

/-- Redis `SPOP` on a reverse-dependency set: pops one member (the head in
this list model) or `none` when the set is empty. -/
def spopDependents (st : RedisState) (pid : String) : Option String × RedisState :=
  match getDependents st pid with
  | [] => (none, st)
  | d :: rest => (some d, setDependents st pid rest)

/-- Python renders `None` as the string "None" when interpolated into a key;
`Queue(name=job.origin)` with an unset origin would build that name. -/
def originName (j : Job) : String :=
  j.origin.getD "None"

/-- A `Queue` object: its name, the `_default_timeout` passed at construction
and the `_async` flag (`Queue.__init__` in `queue.py`). -/
structure Queue where
  name : String
  defaultTimeout : Option Nat
  async : Bool
deriving DecidableEq, Repr

/-- `Queue.DEFAULT_TIMEOUT = 180`. -/
def DEFAULT_TIMEOUT : Nat := 180

/-- `Queue.redis_queue_namespace_prefix = "rq:queue:"`. -/
def queueNamespace : String := "rq:queue:"

/-- `Queue.redis_queues_keys = "rq:queues"` (the registry set; modelled as the
`queuesKeys` field of the state). -/
def queuesRegistryKey : String := "rq:queues"

/-- `self._key = prefix + name` (`Queue.__init__`). -/
def Queue.key (q : Queue) : String :=
  queueNamespace ++ q.name

/-- `Queue.from_queue_key`: reverse-lookup of a queue from its Redis key;
raises `ValueError` when the key does not carry the queue namespace.  The
Python membership test `queue_key.startswith(prefix)` and the slice
`queue_key[len(prefix):]` are rendered with `String.take` / `String.drop`
over the 9 characters of the namespace. -/
def Queue.from_queue_key (queueKey : String) : Except RQError Queue :=
  if queueKey.take 9 = queueNamespace then
    .ok ⟨queueKey.drop 9, none, true⟩
  else
    .error (.valueError ("Not a valid RQ queue key: " ++ queueKey))

/-- `Queue.remove`: `self.connection._lrem(self.key, 0, job_id)` — Redis
`LREM key 0 v` deletes every occurrence of `v` and returns the number of
elements removed. -/
def Queue.remove (q : Queue) (jobId : String) (st : RedisState) : Nat × RedisState :=
  let l := getListD st q.key
  let kept := l.filter (fun x => decide (x ≠ jobId))
  (l.length - kept.length, setListKey st q.key kept)

/-- The head-first drain of `Queue.compact`: `lpop` the scratch key and
`rpush` the ID back onto the primary key when its job record exists. -/
def compactDrain (q : Queue) (scratch : List String) (st : RedisState) : RedisState :=
  match scratch with
  | [] => st
  | jobId :: rest =>
      if (getJob st jobId).isSome then compactDrain q rest (rpush st q.key jobId)
      else compactDrain q rest st

/-- `Queue.compact`: the list is renamed onto a fresh scratch key (so the
primary key starts empty) and the scratch is drained head first, re-appending
only the IDs whose job record exists.  The scratch key carries a fresh UUID
and is empty once drained, so it is not materialized in the state. -/
def Queue.compact (q : Queue) (st : RedisState) : RedisState :=
  let scratch := getListD st q.key
  let st := setListKey st q.key []
  compactDrain q scratch st

/-- `Queue.push_job_id`: `rpush` of the ID on the queue key. -/
def Queue.push_job_id (q : Queue) (jobId : String) (st : RedisState) : RedisState :=
  rpush st q.key jobId

/-- The metadata update of `Queue.enqueue_job` when `set_meta_data` is true:
`job.origin = self.name; job.enqueued_at = utcnow()`. -/
def setMeta (q : Queue) (now : Nat) (j : Job) : Job :=
  { j with origin := some q.name, enqueuedAt := some now }

/-- `if job.timeout is None: job.timeout = self.DEFAULT_TIMEOUT`. -/
def applyDefaultTimeout (j : Job) : Job :=
  if j.timeout.isNone then { j with timeout := some DEFAULT_TIMEOUT } else j

/-- `Queue.enqueue_job(job, set_meta_data)`: registers the queue key in the
registry set, optionally stamps `origin` / `enqueued_at`, applies the default
timeout, persists the job and (in async mode) appends its ID to the FIFO
list.  With `async=False` the source performs the job inline through the
external worker collaborator (out of the core's scope, spec section 1) and
saves it again; the record is modelled as saved unchanged in that branch. -/
def Queue.enqueue_job (q : Queue) (setMetaData : Bool) (now : Nat) (job : Job)
    (st : RedisState) : Job × RedisState :=
  let st := { st with queuesKeys := saddL st.queuesKeys q.key }
  let job := if setMetaData then setMeta q now job else job
  let job := applyDefaultTimeout job
  let st := saveJob st job
  if q.async then
    (job, q.push_job_id job.id st)
  else
    (job, saveJob st job)

/-- The loop body of `Queue.enqueue_dependents`, with a fuel bound on the
number of `spop` iterations (each iteration removes one member of the
reverse-dependency set and nothing re-adds to it, so the initial cardinality
bounds the recursion).  `Job.fetch` of a popped ID without a record raises
`NoSuchJobError`. -/
def enqueueDependentsLoop (fuel : Nat) (q : Queue) (now : Nat) (pid : String)
    (st : RedisState) : Except RQError RedisState :=
  match fuel with
  | 0 => .ok st
  | fuel + 1 =>
      match spopDependents st pid with
      | (none, st) => .ok st
      | (some depId, st) =>
          match getJob st depId with
          | none => .error (.noSuchJob ("There is no job with id " ++ depId))
          | some dependent =>
              let (_, st) := q.enqueue_job true now dependent st
              enqueueDependentsLoop fuel q now pid st

/-- `Queue.enqueue_dependents(job)`: drains the job's reverse-dependency set
one `spop` at a time, fetching each dependent and enqueueing it via
`self.enqueue_job(dependent)` on the invoked queue. -/
def Queue.enqueue_dependents (q : Queue) (now : Nat) (job : Job)
    (st : RedisState) : Except RQError RedisState :=
  enqueueDependentsLoop ((getDependents st job.id).length + 1) q now job.id st

/-- Modelled from the spec: the Store's blocking multi-key list pop (spec
section 6: "blocking pop across multiple list keys honoring their supplied
priority order").  Over a static store it yields the head of the first
non-empty list, and `none` when every list stays empty until the timeout
expires. -/
def blpop (st : RedisState) (queueKeys : List String) :
    Option (String × String × RedisState) :=
  match queueKeys with
  | [] => none
  | k :: rest =>
      match getListD st k with
      | [] => blpop st rest
      | jobId :: tl => some (k, jobId, setListKey st k tl)

/-- The non-blocking branch of `Queue.lpop`: iterate over all queue keys, do
individual `LPOP`s, return the first hit. -/
def lpopIterate (st : RedisState) (queueKeys : List String) :
    Option (String × String) × RedisState :=
  match queueKeys with
  | [] => (none, st)
  | k :: rest =>
      match getListD st k with
      | [] => lpopIterate st rest
      | jobId :: tl => (some (k, jobId), setListKey st k tl)

/-- `Queue.lpop(queue_keys, timeout)`: with a timeout, `0` raises
`ValueError` (before any Store operation) and otherwise `blpop` is issued,
its `None` result raising `DequeueTimeout(timeout, queue_keys)`; without a
timeout the keys are popped non-blockingly in order. -/
def Queue.lpop (queueKeys : List String) (timeout : Option Nat)
    (st : RedisState) : Except RQError (Option (String × String) × RedisState) :=
  match timeout with
  | some t =>
      if t = 0 then
        .error (.valueError
          "RQ does not support indefinite timeouts. Please pick a timeout value > 0.")
      else
        match blpop st queueKeys with
        | none => .error (.dequeueTimeout t queueKeys)
        | some (queueKey, jobId, st) => .ok (some (queueKey, jobId), st)
  | none => .ok (lpopIterate st queueKeys)

/-- The recursion of `Queue.dequeue_any`, with a fuel bound: every recursive
call first pops one ID off some list, so the total length of all lists bounds
the recursion depth (the source recurses unboundedly, spec section 9 note 4).
A popped ID without a job record is silently dropped and the call re-invokes
itself with the original queues and timeout. -/
def dequeueAnyLoop (fuel : Nat) (queues : List Queue) (timeout : Option Nat)
    (st : RedisState) : Except RQError (Option (Job × Queue) × RedisState) :=
  match fuel with
  | 0 => .ok (none, st)
  | fuel + 1 =>
      let queueKeys := queues.map Queue.key
      match Queue.lpop queueKeys timeout st with
      | .error e => .error e
      | .ok (none, st) => .ok (none, st)
      | .ok (some (queueKey, jobId), st) =>
          match Queue.from_queue_key queueKey with
          | .error e => .error e
          | .ok queue =>
              match getJob st jobId with
              | none => dequeueAnyLoop fuel queues timeout st
              | some job => .ok (some (job, queue), st)

/-- Total length of all Redis lists — the fuel bound for `dequeue_any`. -/
def totalListLen (st : RedisState) : Nat :=
  (st.lists.map (fun p => p.2.length)).sum

/-- `Queue.dequeue_any(queues, timeout)`: pops a job ID via `lpop`, rebuilds
the serving queue from its key, fetches the job, and silently recurses when
the record is missing. -/
def Queue.dequeue_any (queues : List Queue) (timeout : Option Nat)
    (st : RedisState) : Except RQError (Option (Job × Queue) × RedisState) :=
  dequeueAnyLoop (totalListLen st + 1) queues timeout st

/-- The queue resolution of `release_job`: the passed queue, a queue built
from the passed name, or the queue named by the job's `origin`. -/
def resolve_queue (job : Job) (queueOrName : Option (Queue ⊕ String)) : Queue :=
  match queueOrName with
  | none => ⟨originName job, none, true⟩
  | some (.inl q) => q
  | some (.inr n) => ⟨n, none, true⟩

/-- `release_job(job_or_id, queue_or_name)`: resolves the job (raising
`NoSuchJobError` for an unknown ID), requires status `DEFERRED` (else
`InvalidJobOperationError`), removes the ID from the `rq:deferred` set
(raising `NoSuchJobError` when it was not a member), then sets the status to
`QUEUED`, saves and enqueues into the resolved queue.  The dependent-
activation block that follows in the source is unreachable: it sits behind
an unconditional early return (`if True: return`). -/
def release_job (jobOrId : Job ⊕ String) (queueOrName : Option (Queue ⊕ String))
    (now : Nat) (st : RedisState) : Except RQError RedisState :=
  let jobE : Except RQError Job :=
    match jobOrId with
    | .inl j => .ok j
    | .inr jid =>
        match getJob st jid with
        | some j => .ok j
        | none => .error (.noSuchJob ("There is no job with id " ++ jid))
  match jobE with
  | .error e => .error e
  | .ok job =>
      if job.status ≠ Status.deferred then
        .error (.invalidJobOperation ("Job status is not deferred: " ++ job.id))
      else
        let queue := resolve_queue job queueOrName
        let (result, deferredSet) := sremL st.deferredSet job.id
        let st := { st with deferredSet := deferredSet }
        if result = 0 then
          .error (.noSuchJob ("No such blocked job: " ++ job.id))
        else
          let job := { job with status := Status.queued }
          let st := saveJob st job
          let (_, st) := queue.enqueue_job true now job st
          .ok st

/-- The failed queue: a `Queue` named by the string form of the `FAILED`
status (`FailedQueue.__init__` passes `Status.FAILED`; modelled from the
spec, section 4.6: "a singleton queue named by the sentinel failed"). -/
def failed_queue : Queue :=
  ⟨"failed", none, true⟩

/-- `FailedQueue.quarantine(job, exc_info)`: stamps `ended_at` and
`exc_info`, then enqueues on the failed queue with `set_meta_data=False` so
`origin` and `enqueued_at` are preserved. -/
def FailedQueue.quarantine (now : Nat) (job : Job) (excInfo : String)
    (st : RedisState) : Job × RedisState :=
  let job := { job with endedAt := some now, excInfo := some excInfo }
  failed_queue.enqueue_job false now job st

/-- `FailedQueue.requeue(job_id)`: fetches the job — a missing record is
silently ignored after removing the ID from the failed queue; otherwise the
job is removed from the failed queue (`InvalidJobOperationError` when it was
not there), its status is reset to `QUEUED`, `exc_info` is cleared, and it is
enqueued on the queue named by its `origin`. -/
def FailedQueue.requeue (now : Nat) (jobId : String) (st : RedisState) :
    Except RQError RedisState :=
  match getJob st jobId with
  | none => .ok (failed_queue.remove jobId st).2
  | some job =>
      let (cnt, st) := failed_queue.remove job.id st
      if cnt = 0 then
        .error (.invalidJobOperation "Cannot requeue non-failed jobs.")
      else
        let job := { job with status := Status.queued, excInfo := none }
        let q : Queue := ⟨originName job, none, true⟩
        .ok (q.enqueue_job true now job st).2

/-- A Python value handed to a comparison operator of `Queue`: either a
`Queue` (or subclass) instance or some non-`Queue` object. -/
inductive PyVal where
  | queue : Queue → PyVal
  | intV : Int → PyVal
  | strV : String → PyVal
  | noneV : PyVal
deriving DecidableEq, Repr

/-- `Queue.__eq__`: raises `TypeError` on a non-`Queue` operand, otherwise
compares the names. -/
def Queue.pyEq (q : Queue) (other : PyVal) : Except RQError Bool :=
  match other with
  | .queue o => .ok (decide (q.name = o.name))
  | _ => .error (.typeError "Cannot compare queues to other objects.")

/-- `Queue.__lt__`: raises `TypeError` on a non-`Queue` operand, otherwise
compares the names lexicographically. -/
def Queue.pyLt (q : Queue) (other : PyVal) : Except RQError Bool :=
  match other with
  | .queue o => .ok (decide (q.name < o.name))
  | _ => .error (.typeError "Cannot compare queues to other objects.")

/-! Basic lemmas about the Store model. -/

theorem alGet_alSet_self {α : Type} (m : List (String × α)) (k : String) (v : α) :
    alGet (alSet m k v) k = some v := by
  induction m with
  | nil => simp [alGet, alSet]
  | cons p rest ih =>
      by_cases h : p.1 = k
      · simp [alGet, alSet, h]
      · simp [alGet, alSet, h, ih]

theorem alGet_alSet_ne {α : Type} (m : List (String × α)) (k k' : String) (v : α)
    (h : k ≠ k') : alGet (alSet m k v) k' = alGet m k' := by
  induction m with
  | nil => simp [alGet, alSet, h]
  | cons p rest ih =>
      by_cases hp : p.1 = k
      · simp [alGet, alSet, hp, h]
      · by_cases hp' : p.1 = k'
        · simp [alGet, alSet, hp, hp', Ne.symm h]
        · simp [alGet, alSet, hp, hp', ih]

theorem alGet_alDel_self {α : Type} (m : List (String × α)) (k : String) :
    alGet (alDel m k) k = none := by
  induction m with
  | nil => simp [alGet, alDel]
  | cons p rest ih =>
      by_cases h : p.1 = k
      · simpa [alDel, h] using ih
      · simp [alDel, alGet, h, ih]

theorem alGet_alDel_ne {α : Type} (m : List (String × α)) (k k' : String)
    (h : k ≠ k') : alGet (alDel m k) k' = alGet m k' := by
  induction m with
  | nil => simp [alGet, alDel]
  | cons p rest ih =>
      by_cases hp : p.1 = k
      · simp [alDel, alGet, hp, h, ih]
      · simp [alDel, alGet, hp, ih]

theorem getListD_setListKey_self (st : RedisState) (k : String) (l : List String) :
    getListD (setListKey st k l) k = l := by
  by_cases h : l = []
  · simp [getListD, setListKey, h, alGet_alDel_self]
  · simp [getListD, setListKey, h, alGet_alSet_self]

theorem getListD_setListKey_ne (st : RedisState) (k k' : String) (l : List String)
    (h : k ≠ k') : getListD (setListKey st k l) k' = getListD st k' := by
  by_cases hl : l = []
  · simp [getListD, setListKey, hl, alGet_alDel_ne _ _ _ h]
  · simp [getListD, setListKey, hl, alGet_alSet_ne _ _ _ _ h]

theorem setListKey_jobs (st : RedisState) (k : String) (l : List String) :
    (setListKey st k l).jobs = st.jobs := by
  by_cases hl : l = [] <;> simp [setListKey, hl]

theorem setListKey_deferredSet (st : RedisState) (k : String) (l : List String) :
    (setListKey st k l).deferredSet = st.deferredSet := by
  by_cases hl : l = [] <;> simp [setListKey, hl]

theorem setListKey_queuesKeys (st : RedisState) (k : String) (l : List String) :
    (setListKey st k l).queuesKeys = st.queuesKeys := by
  by_cases hl : l = [] <;> simp [setListKey, hl]

theorem setListKey_dependents (st : RedisState) (k : String) (l : List String) :
    (setListKey st k l).dependents = st.dependents := by
  by_cases hl : l = [] <;> simp [setListKey, hl]

theorem getJob_setListKey (st : RedisState) (k : String) (l : List String)
    (id : String) : getJob (setListKey st k l) id = getJob st id := by
  simp [getJob, setListKey_jobs]

theorem getListD_rpush_self (st : RedisState) (k v : String) :
    getListD (rpush st k v) k = getListD st k ++ [v] := by
  simp [rpush, getListD_setListKey_self]

theorem getListD_rpush_ne (st : RedisState) (k k' v : String) (h : k ≠ k') :
    getListD (rpush st k v) k' = getListD st k' := by
  simp [rpush, getListD_setListKey_ne _ _ _ _ h]

theorem getJob_rpush (st : RedisState) (k v id : String) :
    getJob (rpush st k v) id = getJob st id := by
  simp [rpush, getJob_setListKey]

theorem getJob_saveJob_self (st : RedisState) (j : Job) :
    getJob (saveJob st j) j.id = some j := by
  simp [getJob, saveJob, alGet_alSet_self]

theorem getJob_saveJob_of_id (st : RedisState) (j : Job) (i : String)
    (h : j.id = i) : getJob (saveJob st j) i = some j := by
  rw [← h]
  exact getJob_saveJob_self _ _

theorem getJob_saveJob_ne (st : RedisState) (j : Job) (i : String) (h : j.id ≠ i) :
    getJob (saveJob st j) i = getJob st i := by
  simp [getJob, saveJob, alGet_alSet_ne _ _ _ _ h]

theorem getListD_saveJob (st : RedisState) (j : Job) (k : String) :
    getListD (saveJob st j) k = getListD st k := by
  simp [getListD, saveJob]

theorem getDependents_saveJob (st : RedisState) (j : Job) (pid : String) :
    getDependents (saveJob st j) pid = getDependents st pid := by
  simp [getDependents, saveJob]

theorem getDependents_setListKey (st : RedisState) (k : String) (l : List String)
    (pid : String) : getDependents (setListKey st k l) pid = getDependents st pid := by
  simp [getDependents, setListKey_dependents]

theorem getDependents_rpush (st : RedisState) (k v pid : String) :
    getDependents (rpush st k v) pid = getDependents st pid := by
  simp [rpush, getDependents_setListKey]

theorem getDependents_setDependents_self (st : RedisState) (pid : String)
    (l : List String) : getDependents (setDependents st pid l) pid = l := by
  by_cases h : l = []
  · simp [getDependents, setDependents, h, alGet_alDel_self]
  · simp [getDependents, setDependents, h, alGet_alSet_self]

theorem getJob_setDependents (st : RedisState) (pid : String) (l : List String)
    (id : String) : getJob (setDependents st pid l) id = getJob st id := by
  by_cases h : l = [] <;> simp [getJob, setDependents, h]

theorem getListD_setDependents (st : RedisState) (pid : String) (l : List String)
    (k : String) : getListD (setDependents st pid l) k = getListD st k := by
  by_cases h : l = [] <;> simp [getListD, setDependents, h]

theorem take_nine_key (s : String) : (queueNamespace ++ s).take 9 = queueNamespace := by
  apply String.ext
  simp [queueNamespace, String.data_take, String.data_append]

theorem drop_nine_key (s : String) : (queueNamespace ++ s).drop 9 = s := by
  apply String.ext
  simp [queueNamespace, String.data_drop, String.data_append]

theorem queue_key_inj (a b : String) (h : queueNamespace ++ a = queueNamespace ++ b) :
    a = b := by
  have h2 := congrArg String.data h
  simp [queueNamespace, String.data_append] at h2
  exact String.ext h2

theorem from_queue_key_key (q : Queue) :
    Queue.from_queue_key q.key = .ok ⟨q.name, none, true⟩ := by
  simp [Queue.from_queue_key, Queue.key, take_nine_key, drop_nine_key]

/-- The length drop of an all-occurrence list removal equals the occurrence
count. -/
theorem length_sub_filter_eq_countP (l : List String) (v : String) :
    l.length - (l.filter (fun x => !decide (x = v))).length =
      l.countP (fun x => x == v) := by
  induction l with
  | nil => simp
  | cons x rest ih =>
      have hle : (rest.filter (fun x => !decide (x = v))).length ≤ rest.length :=
        List.length_filter_le _ _
      by_cases h : x = v
      · simp [List.filter_cons, h, List.countP_cons]
        omega
      · simp [List.filter_cons, h, List.countP_cons]
        omega

/-! Claim theorems. -/

/-- Claim C7: `compact()` removes from the FIFO list exactly the entries with
no backing job record, preserving the relative order of the surviving
entries — the resulting list is the filter of the old list by record
existence. -/
theorem claim_C7 (q : Queue) (st : RedisState) :
    getListD (q.compact st) q.key =
      (getListD st q.key).filter (fun i => (getJob st i).isSome) := by
  have drain : ∀ (scratch : List String) (st' : RedisState),
      (∀ i, getJob st' i = getJob st i) →
      getListD (compactDrain q scratch st') q.key =
        getListD st' q.key ++ scratch.filter (fun i => (getJob st i).isSome) := by
    intro scratch
    induction scratch with
    | nil => intro st' _; simp [compactDrain]
    | cons jobId rest ih =>
        intro st' hjobs
        by_cases h : (getJob st jobId).isSome
        · have h' : (getJob st' jobId).isSome := by rw [hjobs]; exact h
          have hrec : ∀ i, getJob (rpush st' q.key jobId) i = getJob st i := by
            intro i; rw [getJob_rpush]; exact hjobs i
          simp only [compactDrain, h', if_pos]
          rw [ih _ hrec, getListD_rpush_self]
          simp [List.filter_cons, h]
        · have h' : ¬(getJob st' jobId).isSome = true := by rw [hjobs]; exact h
          simp only [compactDrain, h', if_neg, Bool.false_eq_true, not_false_iff]
          rw [ih _ hjobs]
          simp [List.filter_cons, h]
  have base : ∀ i, getJob (setListKey st q.key []) i = getJob st i := by
    intro i; exact getJob_setListKey _ _ _ _
  unfold Queue.compact
  rw [drain _ _ base, getListD_setListKey_self]
  simp

/-- Claim C8 (amended): `remove(job_or_id)` deletes every occurrence of the ID
from the FIFO list (preserving the order of the other entries) and returns
the number of occurrences removed — which is `0` exactly when the ID was
absent, but exceeds `1` when the ID occurred more than once. -/
theorem claim_C8 (q : Queue) (jobId : String) (st : RedisState) :
    (q.remove jobId st).1 = (getListD st q.key).countP (fun x => x == jobId) ∧
    getListD (q.remove jobId st).2 q.key =
      (getListD st q.key).filter (fun x => decide (x ≠ jobId)) ∧
    ((q.remove jobId st).1 = 0 ↔ jobId ∉ getListD st q.key) := by
  have h1 : (q.remove jobId st).1 =
      (getListD st q.key).countP (fun x => x == jobId) := by
    simp only [Queue.remove, decide_not]
    exact length_sub_filter_eq_countP _ _
  refine ⟨h1, ?_, ?_⟩
  · simp [Queue.remove, getListD_setListKey_self]
  · rw [h1, List.countP_eq_zero]
    constructor
    · intro h hmem
      have := h _ hmem
      simp at this
    · intro h a ha
      simp only [beq_iff_eq, decide_eq_true_eq]
      intro hav
      exact h (hav ▸ ha)

def qC8 : Queue := ⟨"default", none, true⟩

def stC8 : RedisState := ⟨[], [("rq:queue:default", ["a", "a"])], [], [], []⟩

/-- Claim C8, counterexample: on a queue whose FIFO list holds the same ID
twice, `remove` returns `2`, not `0` or `1`. -/
theorem claim_C8_counterexample :
    (qC8.remove "a" stC8).1 = 2 ∧
    ¬((qC8.remove "a" stC8).1 = 0 ∨ (qC8.remove "a" stC8).1 = 1) := by
  decide

/-- Claim C10: comparing a queue with any non-`Queue` value raises
`TypeError`, for both the equality and the order comparison. -/
theorem claim_C10 (q : Queue) (x : PyVal) (h : ∀ o : Queue, x ≠ PyVal.queue o) :
    q.pyEq x = .error (.typeError "Cannot compare queues to other objects.") ∧
    q.pyLt x = .error (.typeError "Cannot compare queues to other objects.") := by
  cases x with
  | queue o => exact absurd rfl (h o)
  | intV n => exact ⟨rfl, rfl⟩
  | strV s => exact ⟨rfl, rfl⟩
  | noneV => exact ⟨rfl, rfl⟩

/-- Claim C10, witness: the comparisons of the queue named `default` against
the integer `5` raise `TypeError`. -/
theorem claim_C10_witness :
    (∀ o : Queue, PyVal.intV 5 ≠ PyVal.queue o) ∧
    (Queue.mk "default" none true).pyEq (PyVal.intV 5) =
      .error (.typeError "Cannot compare queues to other objects.") ∧
    (Queue.mk "default" none true).pyLt (PyVal.intV 5) =
      .error (.typeError "Cannot compare queues to other objects.") := by
  have h : ∀ o : Queue, PyVal.intV 5 ≠ PyVal.queue o := by intro o hc; cases hc
  exact ⟨h, (claim_C10 ⟨"default", none, true⟩ (PyVal.intV 5) h).1,
    (claim_C10 ⟨"default", none, true⟩ (PyVal.intV 5) h).2⟩

theorem blpop_none_of_empty (st : RedisState) (keys : List String)
    (h : ∀ k ∈ keys, getListD st k = []) : blpop st keys = none := by
  induction keys with
  | nil => rfl
  | cons k rest ih =>
      have hk := h k (by simp)
      simp only [blpop, hk]
      exact ih (fun k' hk' => h k' (by simp [hk']))

theorem dequeueAnyLoop_succ (fuel : Nat) (queues : List Queue)
    (timeout : Option Nat) (st : RedisState) :
    dequeueAnyLoop (fuel + 1) queues timeout st =
      (match Queue.lpop (queues.map Queue.key) timeout st with
       | .error e => .error e
       | .ok (none, st) => .ok (none, st)
       | .ok (some (queueKey, jobId), st) =>
           match Queue.from_queue_key queueKey with
           | .error e => .error e
           | .ok queue =>
               match getJob st jobId with
               | none => dequeueAnyLoop fuel queues timeout st
               | some job => .ok (some (job, queue), st)) := rfl

theorem lpop_timeout_zero (queueKeys : List String) (st : RedisState) :
    Queue.lpop queueKeys (some 0) st =
      .error (.valueError
        "RQ does not support indefinite timeouts. Please pick a timeout value > 0.") := rfl

theorem lpop_no_timeout (queueKeys : List String) (st : RedisState) :
    Queue.lpop queueKeys none st = .ok (lpopIterate st queueKeys) := rfl

/-- Claim C5: `dequeue_any` with timeout `0` fails with `ValueError` (the
guard precedes any Store pop), and in blocking mode over queues that stay
empty for the whole wait it fails with `DequeueTimeout` carrying the timeout
and the queue keys. -/
theorem claim_C5 (queues : List Queue) (st : RedisState) :
    Queue.dequeue_any queues (some 0) st =
      .error (.valueError
        "RQ does not support indefinite timeouts. Please pick a timeout value > 0.") ∧
    (∀ t : Nat, 0 < t → (∀ q ∈ queues, getListD st q.key = []) →
      Queue.dequeue_any queues (some t) st =
        .error (.dequeueTimeout t (queues.map Queue.key))) := by
  constructor
  · show dequeueAnyLoop (totalListLen st + 1) queues (some 0) st = _
    rw [dequeueAnyLoop_succ, lpop_timeout_zero]
  · intro t ht hempty
    have hbl : blpop st (queues.map Queue.key) = none := by
      apply blpop_none_of_empty
      intro k hk
      obtain ⟨q, hq, rfl⟩ := List.mem_map.mp hk
      exact hempty q hq
    have ht0 : ¬t = 0 := Nat.pos_iff_ne_zero.mp ht
    have hlp : Queue.lpop (queues.map Queue.key) (some t) st =
        .error (.dequeueTimeout t (queues.map Queue.key)) := by
      simp only [Queue.lpop, ht0, if_false, hbl]
    show dequeueAnyLoop (totalListLen st + 1) queues (some t) st = _
    rw [dequeueAnyLoop_succ, hlp]

def qC5 : Queue := ⟨"foo", none, true⟩

def stC5 : RedisState := ⟨[], [], [], [], []⟩

/-- Claim C5, witness: over the single empty queue `foo`, timeout `0` raises
`ValueError` and timeout `7` raises `DequeueTimeout 7` with the queue key. -/
theorem claim_C5_witness :
    (0 : Nat) < 7 ∧ (∀ q ∈ [qC5], getListD stC5 q.key = []) ∧
    Queue.dequeue_any [qC5] (some 0) stC5 =
      .error (.valueError
        "RQ does not support indefinite timeouts. Please pick a timeout value > 0.") ∧
    Queue.dequeue_any [qC5] (some 7) stC5 =
      .error (.dequeueTimeout 7 ([qC5].map Queue.key)) := by
  have hempty : ∀ q ∈ [qC5], getListD stC5 q.key = [] := by
    intro q hq
    simp only [List.mem_singleton] at hq
    subst hq
    rfl
  exact ⟨by decide, hempty, (claim_C5 [qC5] stC5).1,
    (claim_C5 [qC5] stC5).2 7 (by decide) hempty⟩

theorem lpopIterate_none_of_empty (st : RedisState) (keys : List String)
    (h : ∀ k ∈ keys, getListD st k = []) : lpopIterate st keys = (none, st) := by
  induction keys with
  | nil => rfl
  | cons k rest ih =>
      have hk := h k (by simp)
      simp only [lpopIterate, hk]
      exact ih (fun k' hk' => h k' (by simp [hk']))

theorem lpopIterate_first_hit (st : RedisState) (pre : List String) (k : String)
    (post : List String) (jobId : String) (tl : List String)
    (hpre : ∀ k' ∈ pre, getListD st k' = [])
    (hk : getListD st k = jobId :: tl) :
    lpopIterate st (pre ++ k :: post) = (some (k, jobId), setListKey st k tl) := by
  induction pre with
  | nil => simp only [List.nil_append, lpopIterate, hk]
  | cons k' rest ih =>
      have hk' := hpre k' (by simp)
      simp only [List.cons_append, lpopIterate, hk']
      exact ih (fun k'' hk'' => hpre k'' (by simp [hk'']))

/-- Claim C6: non-blocking `dequeue_any` pops one ID off the first queue (in
the supplied order) whose list is non-empty — provided that ID has a backing
record — and returns the job paired with a queue identifying the server by
name; it returns `none`, with the state untouched, when every supplied queue
is empty (in particular for the empty queue list). -/
theorem claim_C6 (st : RedisState) :
    (∀ queues : List Queue, (∀ q ∈ queues, getListD st q.key = []) →
      Queue.dequeue_any queues none st = .ok (none, st)) ∧
    (∀ (pre post : List Queue) (q : Queue) (jobId : String) (tl : List String)
        (job : Job),
      (∀ q' ∈ pre, getListD st q'.key = []) →
      getListD st q.key = jobId :: tl →
      getJob st jobId = some job →
      Queue.dequeue_any (pre ++ q :: post) none st =
        .ok (some (job, ⟨q.name, none, true⟩), setListKey st q.key tl)) := by
  constructor
  · intro queues hempty
    have hit : lpopIterate st (queues.map Queue.key) = (none, st) := by
      apply lpopIterate_none_of_empty
      intro k hk
      obtain ⟨q, hq, rfl⟩ := List.mem_map.mp hk
      exact hempty q hq
    show dequeueAnyLoop (totalListLen st + 1) queues none st = _
    rw [dequeueAnyLoop_succ, lpop_no_timeout, hit]
  · intro pre post q jobId tl job hpre hk hjob
    have hit : lpopIterate st (List.map Queue.key pre ++
        q.key :: List.map Queue.key post) =
        (some (q.key, jobId), setListKey st q.key tl) := by
      apply lpopIterate_first_hit
      · intro k' hk'
        obtain ⟨q', hq', rfl⟩ := List.mem_map.mp hk'
        exact hpre q' hq'
      · exact hk
    have hjob' : getJob (setListKey st q.key tl) jobId = some job := by
      rw [getJob_setListKey]; exact hjob
    show dequeueAnyLoop (totalListLen st + 1) (pre ++ q :: post) none st = _
    rw [dequeueAnyLoop_succ, lpop_no_timeout, List.map_append, List.map_cons,
      hit]
    simp only [from_queue_key_key, hjob']

def fooC6 : Queue := ⟨"foo", none, true⟩

def barC6 : Queue := ⟨"bar", none, true⟩

def jobC6 : Job := ⟨"jid", Status.queued, some "bar", some 0, none, none, some 180, []⟩

def stC6 : RedisState := ⟨[("jid", jobC6)], [("rq:queue:bar", ["jid"])], [], [], []⟩

/-- Claim C6, witness: with `foo` empty and `bar` holding the single job
`jid`, non-blocking `dequeue_any` over `[foo, bar]` serves the job from
`bar` and pops it; over `[foo]` alone it returns `none`. -/
theorem claim_C6_witness :
    (∀ q ∈ [fooC6], getListD stC6 q.key = []) ∧
    Queue.dequeue_any [fooC6] none stC6 = .ok (none, stC6) ∧
    getListD stC6 barC6.key = ["jid"] ∧
    getJob stC6 "jid" = some jobC6 ∧
    Queue.dequeue_any ([fooC6] ++ barC6 :: []) none stC6 =
      .ok (some (jobC6, ⟨barC6.name, none, true⟩),
        setListKey stC6 barC6.key []) := by
  have hempty : ∀ q ∈ [fooC6], getListD stC6 q.key = [] := by
    intro q hq
    simp only [List.mem_singleton] at hq
    subst hq
    rfl
  exact ⟨hempty, (claim_C6 stC6).1 [fooC6] hempty, rfl, rfl,
    (claim_C6 stC6).2 [fooC6] [] barC6 "jid" [] jobC6 hempty rfl rfl⟩

/-- Claim C9 (amended): `requeue` of a job ID with no backing record returns
silently, but is not a strict no-op on the failed queue: it removes every
occurrence of that ID from the failed queue FIFO list (the source comment
reads "silently ignore/remove this job"); job records and all other state
are unchanged. -/
theorem claim_C9 (now : Nat) (jobId : String) (st : RedisState)
    (h : getJob st jobId = none) :
    ∃ st', FailedQueue.requeue now jobId st = .ok st' ∧
      st'.jobs = st.jobs ∧
      st'.deferredSet = st.deferredSet ∧
      st'.queuesKeys = st.queuesKeys ∧
      st'.dependents = st.dependents ∧
      getListD st' failed_queue.key =
        (getListD st failed_queue.key).filter (fun x => decide (x ≠ jobId)) ∧
      (∀ k, k ≠ failed_queue.key → getListD st' k = getListD st k) := by
  refine ⟨(failed_queue.remove jobId st).2, ?_, ?_, ?_, ?_, ?_, ?_, ?_⟩
  · simp only [FailedQueue.requeue, h]
  · simp [Queue.remove, setListKey_jobs]
  · simp [Queue.remove, setListKey_deferredSet]
  · simp [Queue.remove, setListKey_queuesKeys]
  · simp [Queue.remove, setListKey_dependents]
  · simp [Queue.remove, getListD_setListKey_self]
  · intro k hk
    simp only [Queue.remove]
    exact getListD_setListKey_ne _ _ _ _ (Ne.symm hk)

def stC9 : RedisState := ⟨[], [("rq:queue:failed", ["g"])], [], [], []⟩

/-- Claim C9, counterexample: requeueing the recordless ID `g` while the
failed queue FIFO list holds `g` succeeds silently but removes `g` from the
list — the list is not left unchanged as the claim states. -/
theorem claim_C9_counterexample :
    getJob stC9 "g" = none ∧
    FailedQueue.requeue 0 "g" stC9 = .ok ⟨[], [], [], [], []⟩ ∧
    getListD (⟨[], [], [], [], []⟩ : RedisState) failed_queue.key ≠
      getListD stC9 failed_queue.key := by
  decide

/-- Claim C9, witness: the amended statement instantiated on the state whose
failed list holds only the recordless ID `g`. -/
theorem claim_C9_witness :
    getJob stC9 "g" = none ∧
    (∃ st', FailedQueue.requeue 0 "g" stC9 = .ok st' ∧
      st'.jobs = stC9.jobs ∧
      st'.deferredSet = stC9.deferredSet ∧
      st'.queuesKeys = stC9.queuesKeys ∧
      st'.dependents = stC9.dependents ∧
      getListD st' failed_queue.key =
        (getListD stC9 failed_queue.key).filter (fun x => decide (x ≠ "g")) ∧
      (∀ k, k ≠ failed_queue.key → getListD st' k = getListD stC9 k)) :=
  ⟨by decide, claim_C9 0 "g" stC9 (by decide)⟩

theorem applyDefaultTimeout_id (j : Job) : (applyDefaultTimeout j).id = j.id := by
  by_cases h : j.timeout.isNone <;> simp [applyDefaultTimeout, h]

theorem applyDefaultTimeout_status (j : Job) :
    (applyDefaultTimeout j).status = j.status := by
  by_cases h : j.timeout.isNone <;> simp [applyDefaultTimeout, h]

theorem applyDefaultTimeout_origin (j : Job) :
    (applyDefaultTimeout j).origin = j.origin := by
  by_cases h : j.timeout.isNone <;> simp [applyDefaultTimeout, h]

theorem applyDefaultTimeout_excInfo (j : Job) :
    (applyDefaultTimeout j).excInfo = j.excInfo := by
  by_cases h : j.timeout.isNone <;> simp [applyDefaultTimeout, h]

theorem applyDefaultTimeout_of_some (j : Job) (t : Nat) (h : j.timeout = some t) :
    applyDefaultTimeout j = j := by
  simp [applyDefaultTimeout, h]

/-- Equation of `enqueue_job` with `set_meta_data=True` on an async queue. -/
theorem enqueue_job_async_eq (q : Queue) (hq : q.async = true) (now : Nat)
    (j : Job) (st : RedisState) :
    q.enqueue_job true now j st =
      (applyDefaultTimeout (setMeta q now j),
       rpush (saveJob { st with queuesKeys := saddL st.queuesKeys q.key }
           (applyDefaultTimeout (setMeta q now j)))
         q.key (applyDefaultTimeout (setMeta q now j)).id) := by
  simp only [Queue.enqueue_job, Queue.push_job_id, hq, if_true]

/-- Equation of `quarantine`: metadata is preserved (`set_meta_data=False`)
and the job lands on the failed queue list. -/
theorem quarantine_eq (now : Nat) (j : Job) (e : String) (st : RedisState) :
    FailedQueue.quarantine now j e st =
      (applyDefaultTimeout { j with endedAt := some now, excInfo := some e },
       rpush (saveJob
           { st with queuesKeys := saddL st.queuesKeys failed_queue.key }
           (applyDefaultTimeout { j with endedAt := some now, excInfo := some e }))
         failed_queue.key
         (applyDefaultTimeout { j with endedAt := some now, excInfo := some e }).id) :=
  rfl

theorem remove_fst_eq_countP (q : Queue) (v : String) (st : RedisState) :
    (q.remove v st).1 = (getListD st q.key).countP (fun x => x == v) := by
  simp only [Queue.remove, decide_not]
  exact length_sub_filter_eq_countP _ _

theorem failed_queue_key : failed_queue.key = queueNamespace ++ "failed" := rfl

/-- Equation of a successful `requeue` of a fetched job that is present on
the failed queue list: it is removed there and enqueued (status `QUEUED`,
`exc_info` cleared) on the queue named by its origin. -/
theorem requeue_found (now : Nat) (jobId : String) (st : RedisState) (job : Job)
    (h : getJob st jobId = some job)
    (hmem : job.id ∈ getListD st failed_queue.key) :
    FailedQueue.requeue now jobId st =
      .ok ((Queue.mk (originName { job with status := Status.queued, excInfo := none })
            none true).enqueue_job true now
            { job with status := Status.queued, excInfo := none }
            (failed_queue.remove job.id st).2).2 := by
  have hcnt : ¬(failed_queue.remove job.id st).1 = 0 := by
    rw [remove_fst_eq_countP]
    have hpos : 0 < (getListD st failed_queue.key).countP (fun x => x == job.id) :=
      List.countP_pos_iff.mpr ⟨job.id, hmem, by simp⟩
    omega
  rcases hrm : failed_queue.remove job.id st with ⟨cnt, st2⟩
  rw [hrm] at hcnt
  simp only [FailedQueue.requeue, h, hrm]
  simp only at hcnt
  simp only [hcnt, if_false, reduceIte]

/-- Claim C4: for a job with an origin other than the failed queue and a set
timeout, `quarantine` followed by `requeue` of its ID leaves the job's ID on
the queue named by its original origin and off the failed queue, with status
`QUEUED`, `exc_info` cleared and the timeout unchanged. -/
theorem claim_C4 (j : Job) (e o : String) (t now1 now2 : Nat) (st : RedisState)
    (ho : j.origin = some o) (hof : o ≠ "failed") (ht : j.timeout = some t) :
    ∃ st2 j2,
      FailedQueue.requeue now2 j.id (FailedQueue.quarantine now1 j e st).2 =
        .ok st2 ∧
      getJob st2 j.id = some j2 ∧
      j2.status = Status.queued ∧
      j2.excInfo = none ∧
      j2.timeout = some t ∧
      j2.origin = some o ∧
      j.id ∈ getListD st2 (queueNamespace ++ o) ∧
      j.id ∉ getListD st2 failed_queue.key := by
  have hjq : applyDefaultTimeout { j with endedAt := some now1, excInfo := some e } =
      { j with endedAt := some now1, excInfo := some e } :=
    applyDefaultTimeout_of_some _ t ht
  have hst1 : (FailedQueue.quarantine now1 j e st).2 =
      rpush (saveJob { st with queuesKeys := saddL st.queuesKeys failed_queue.key }
          { j with endedAt := some now1, excInfo := some e })
        failed_queue.key j.id := by
    rw [quarantine_eq, hjq]
  rw [hst1]
  have h1 : getJob
      (rpush (saveJob { st with queuesKeys := saddL st.queuesKeys failed_queue.key }
          { j with endedAt := some now1, excInfo := some e })
        failed_queue.key j.id) j.id =
      some { j with endedAt := some now1, excInfo := some e } := by
    rw [getJob_rpush]
    exact getJob_saveJob_self _ _
  have hmem : ({ j with endedAt := some now1, excInfo := some e } : Job).id ∈
      getListD
        (rpush (saveJob { st with queuesKeys := saddL st.queuesKeys failed_queue.key }
            { j with endedAt := some now1, excInfo := some e })
          failed_queue.key j.id) failed_queue.key := by
    rw [getListD_rpush_self]
    simp
  have hreq := requeue_found now2 j.id _ _ h1 hmem
  rw [hreq]
  have horig : originName { { j with endedAt := some now1, excInfo := some e }
      with status := Status.queued, excInfo := none } = o := by
    simp [originName, ho]
  rw [horig]
  rw [enqueue_job_async_eq _ rfl]
  have hj3 : applyDefaultTimeout (setMeta ⟨o, none, true⟩ now2
      { { j with endedAt := some now1, excInfo := some e }
        with status := Status.queued, excInfo := none }) =
      setMeta ⟨o, none, true⟩ now2
      { { j with endedAt := some now1, excInfo := some e }
        with status := Status.queued, excInfo := none } :=
    applyDefaultTimeout_of_some _ t ht
  rw [hj3]
  have hkne : (Queue.mk o none true).key ≠ failed_queue.key := by
    rw [failed_queue_key]
    intro hc
    exact hof (queue_key_inj _ _ hc)
  refine ⟨_, setMeta ⟨o, none, true⟩ now2
    { { j with endedAt := some now1, excInfo := some e }
      with status := Status.queued, excInfo := none },
    rfl, ?_, ?_, ?_, ?_, ?_, ?_, ?_⟩
  · rw [getJob_rpush]
    exact getJob_saveJob_self _ _
  · simp [setMeta]
  · simp [setMeta]
  · simp [setMeta, ht]
  · simp [setMeta]
  · have hqk : (Queue.mk o none true).key = queueNamespace ++ o := rfl
    rw [← hqk, getListD_rpush_self]
    simp [setMeta]
  · rw [getListD_rpush_ne _ _ _ _ hkne, getListD_saveJob]
    have hq2 : getListD
        ({ (failed_queue.remove
              ({ j with endedAt := some now1, excInfo := some e } : Job).id
              (rpush (saveJob
                  { st with queuesKeys := saddL st.queuesKeys failed_queue.key }
                  { j with endedAt := some now1, excInfo := some e })
                failed_queue.key j.id)).2 with
          queuesKeys := saddL (failed_queue.remove
              ({ j with endedAt := some now1, excInfo := some e } : Job).id
              (rpush (saveJob
                  { st with queuesKeys := saddL st.queuesKeys failed_queue.key }
                  { j with endedAt := some now1, excInfo := some e })
                failed_queue.key j.id)).2.queuesKeys (Queue.mk o none true).key })
        failed_queue.key =
        getListD (failed_queue.remove
            ({ j with endedAt := some now1, excInfo := some e } : Job).id
            (rpush (saveJob
                { st with queuesKeys := saddL st.queuesKeys failed_queue.key }
                { j with endedAt := some now1, excInfo := some e })
              failed_queue.key j.id)).2 failed_queue.key := rfl
    rw [hq2]
    simp only [Queue.remove, getListD_setListKey_self]
    simp [List.mem_filter]

def jC4 : Job := ⟨"J", Status.failed, some "fake", none, none, none, some 200, []⟩

def stC4 : RedisState := ⟨[], [], [], [], []⟩

/-- Claim C4, witness: the round-trip on the job `J` with origin `fake` and
timeout `200`, quarantined with an error message and requeued. -/
theorem claim_C4_witness :
    jC4.origin = some "fake" ∧ "fake" ≠ "failed" ∧ jC4.timeout = some 200 ∧
    (∃ st2 j2,
      FailedQueue.requeue 1 jC4.id
          (FailedQueue.quarantine 0 jC4 "Some fake error" stC4).2 = .ok st2 ∧
      getJob st2 jC4.id = some j2 ∧
      j2.status = Status.queued ∧
      j2.excInfo = none ∧
      j2.timeout = some 200 ∧
      j2.origin = some "fake" ∧
      jC4.id ∈ getListD st2 (queueNamespace ++ "fake") ∧
      jC4.id ∉ getListD st2 failed_queue.key) :=
  ⟨rfl, by decide, rfl,
    claim_C4 jC4 "Some fake error" "fake" 200 0 1 stC4 rfl (by decide) rfl⟩

/-- Claim C3: the case analysis of `release_job(job_or_id, target?)`: unknown
ID fails `NoSuchJob`; a resolved job with a status other than `DEFERRED`
fails `InvalidJobOperation`; a deferred job whose ID is not in the Deferred
Set fails `NoSuchJob`; otherwise the ID leaves the Deferred Set, the job is
persisted with status `QUEUED` and its ID is appended to the target queue —
the passed queue if supplied, else the queue named by the job's origin. -/
theorem claim_C3 (st : RedisState) (now : Nat) (jid : String)
    (qn : Option (Queue ⊕ String)) :
    (∀ j : Job, resolve_queue j none = ⟨originName j, none, true⟩) ∧
    (∀ (j : Job) (q : Queue), resolve_queue j (some (.inl q)) = q) ∧
    (getJob st jid = none →
      release_job (.inr jid) qn now st =
        .error (.noSuchJob ("There is no job with id " ++ jid))) ∧
    (∀ j, getJob st jid = some j → j.status ≠ Status.deferred →
      release_job (.inr jid) qn now st =
        .error (.invalidJobOperation ("Job status is not deferred: " ++ j.id))) ∧
    (∀ j, getJob st jid = some j → j.status = Status.deferred →
      j.id ∉ st.deferredSet →
      release_job (.inr jid) qn now st =
        .error (.noSuchJob ("No such blocked job: " ++ j.id))) ∧
    (∀ j, getJob st jid = some j → j.status = Status.deferred →
      j.id ∈ st.deferredSet → (resolve_queue j qn).async = true →
      ∃ st', release_job (.inr jid) qn now st = .ok st' ∧
        st'.deferredSet = st.deferredSet.filter (fun x => decide (x ≠ j.id)) ∧
        getJob st' j.id =
          some (applyDefaultTimeout (setMeta (resolve_queue j qn) now
            { j with status := Status.queued })) ∧
        (applyDefaultTimeout (setMeta (resolve_queue j qn) now
          { j with status := Status.queued })).status = Status.queued ∧
        j.id ∈ getListD st' (resolve_queue j qn).key) := by
  refine ⟨fun j => rfl, fun j q => rfl, ?_, ?_, ?_, ?_⟩
  · intro h
    simp [release_job, h]
  · intro j h hs
    simp [release_job, h, hs]
  · intro j h hs hnd
    simp [release_job, h, hs, sremL, hnd]
  · intro j h hs hmem hasync
    have hsrem : sremL st.deferredSet j.id =
        (1, st.deferredSet.filter (fun x => decide (x ≠ j.id))) := by
      simp [sremL, hmem]
    have heq : release_job (.inr jid) qn now st =
        .ok ((resolve_queue j qn).enqueue_job true now
          { j with status := Status.queued }
          (saveJob { st with deferredSet :=
              st.deferredSet.filter (fun x => decide (x ≠ j.id)) }
            { j with status := Status.queued })).2 := by
      simp only [release_job, h, hsrem]
      simp [hs]
    rw [heq, enqueue_job_async_eq _ hasync]
    refine ⟨_, rfl, ?_, ?_, ?_, ?_⟩
    · rw [rpush, setListKey_deferredSet]
      simp [saveJob]
    · rw [getJob_rpush]
      have hid : (applyDefaultTimeout (setMeta (resolve_queue j qn) now
          { j with status := Status.queued })).id = j.id := by
        rw [applyDefaultTimeout_id]
        simp [setMeta]
      exact getJob_saveJob_of_id _ _ _ hid
    · rw [applyDefaultTimeout_status]
      simp [setMeta]
    · rw [getListD_rpush_self]
      simp [applyDefaultTimeout_id, setMeta]

def jC3q : Job := ⟨"a", Status.queued, some "default", none, none, none, some 180, []⟩

def jC3d : Job := ⟨"d", Status.deferred, some "default", none, none, none, some 180, []⟩

def jC3e : Job := ⟨"e", Status.deferred, some "default", none, none, none, some 180, []⟩

def stC3 : RedisState := ⟨[("a", jC3q), ("d", jC3d), ("e", jC3e)], [], ["d"], [], []⟩

/-- Claim C3, witness: the four cases of `release_job` exercised on a store
holding a queued job `a`, a deferred job `d` in the Deferred Set, a deferred
job `e` outside it, and no record under `x`. -/
theorem claim_C3_witness :
    (getJob stC3 "x" = none ∧
      release_job (.inr "x") none 0 stC3 =
        .error (.noSuchJob ("There is no job with id " ++ "x"))) ∧
    (getJob stC3 "a" = some jC3q ∧ jC3q.status ≠ Status.deferred ∧
      release_job (.inr "a") none 0 stC3 =
        .error (.invalidJobOperation ("Job status is not deferred: " ++ jC3q.id))) ∧
    (getJob stC3 "e" = some jC3e ∧ jC3e.status = Status.deferred ∧
      jC3e.id ∉ stC3.deferredSet ∧
      release_job (.inr "e") none 0 stC3 =
        .error (.noSuchJob ("No such blocked job: " ++ jC3e.id))) ∧
    (getJob stC3 "d" = some jC3d ∧ jC3d.status = Status.deferred ∧
      jC3d.id ∈ stC3.deferredSet ∧ (resolve_queue jC3d none).async = true ∧
      ∃ st', release_job (.inr "d") none 0 stC3 = .ok st' ∧
        st'.deferredSet =
          stC3.deferredSet.filter (fun x => decide (x ≠ jC3d.id)) ∧
        getJob st' jC3d.id =
          some (applyDefaultTimeout (setMeta (resolve_queue jC3d none) 0
            { jC3d with status := Status.queued })) ∧
        (applyDefaultTimeout (setMeta (resolve_queue jC3d none) 0
          { jC3d with status := Status.queued })).status = Status.queued ∧
        jC3d.id ∈ getListD st' (resolve_queue jC3d none).key) :=
  ⟨⟨by decide, (claim_C3 stC3 0 "x" none).2.2.1 (by decide)⟩,
    ⟨by decide, by decide,
      (claim_C3 stC3 0 "a" none).2.2.2.1 jC3q (by decide) (by decide)⟩,
    ⟨by decide, by decide, by decide,
      (claim_C3 stC3 0 "e" none).2.2.2.2.1 jC3e (by decide) (by decide) (by decide)⟩,
    ⟨by decide, by decide, by decide, by decide,
      (claim_C3 stC3 0 "d" none).2.2.2.2.2 jC3d (by decide) (by decide)
        (by decide) (by decide)⟩⟩

/-- Formalisation of the claim wording "now fully unblocked (all its parents
finished)": every parent named in the job's `dependencies` has a record with
status `FINISHED`. -/
def fullyUnblocked (st : RedisState) (j : Job) : Bool :=
  j.dependencies.all (fun p =>
    match getJob st p with
    | some pj => pj.status == Status.finished
    | none => false)

/-- Equation of `enqueue_job` with `set_meta_data=True` on a non-async queue
(the inline-execution branch). -/
theorem enqueue_job_sync_eq (q : Queue) (hq : q.async = false) (now : Nat)
    (j : Job) (st : RedisState) :
    q.enqueue_job true now j st =
      (applyDefaultTimeout (setMeta q now j),
       saveJob (saveJob { st with queuesKeys := saddL st.queuesKeys q.key }
           (applyDefaultTimeout (setMeta q now j)))
         (applyDefaultTimeout (setMeta q now j))) := by
  simp only [Queue.enqueue_job, hq]
  simp

/-- Claim C2 (amended): a successful `release_job(j)` performs no promotion
of the released job's reverse-dependents: the activation cascade in the
source is unreachable behind an unconditional early return, so the
reverse-dependency sets, every job record other than j's own, and every FIFO
list other than the target queue's are left unchanged. -/
theorem claim_C2 (j : Job) (qn : Option (Queue ⊕ String)) (now : Nat)
    (st st' : RedisState)
    (h : release_job (.inl j) qn now st = .ok st') :
    st'.dependents = st.dependents ∧
    (∀ i, i ≠ j.id → getJob st' i = getJob st i) ∧
    (∀ k, k ≠ (resolve_queue j qn).key → getListD st' k = getListD st k) := by
  simp only [release_job] at h
  by_cases hs : j.status = Status.deferred
  swap
  · simp [hs] at h
  rcases hsrem : sremL st.deferredSet j.id with ⟨cnt, ds⟩
  rw [hsrem] at h
  by_cases hc : cnt = 0
  · simp [hs, hc] at h
  simp only [hs, hc, if_neg, if_false] at h
  simp at h
  by_cases ha : (resolve_queue j qn).async = true
  · rw [enqueue_job_async_eq _ ha] at h
    subst h
    refine ⟨?_, ?_, ?_⟩
    · simp [rpush, setListKey_dependents, saveJob]
    · intro i hi
      have h4 : ∀ (m : List (String × Job)) (v : Job),
          alGet (alSet m j.id v) i = alGet m i :=
        fun m v => alGet_alSet_ne m j.id i v hi.symm
      have h3 : (applyDefaultTimeout (setMeta (resolve_queue j qn) now
          { j with status := Status.queued })).id ≠ i := by
        rw [applyDefaultTimeout_id]
        simpa [setMeta] using hi.symm
      rw [getJob_rpush, getJob_saveJob_ne _ _ _ h3]
      simp [getJob, saveJob, h4]
    · intro k hk
      rw [getListD_rpush_ne _ _ _ _ (Ne.symm hk), getListD_saveJob]
      simp [getListD, saveJob]
  · have ha' : (resolve_queue j qn).async = false := by
      revert ha
      cases (resolve_queue j qn).async <;> simp
    rw [enqueue_job_sync_eq _ ha'] at h
    subst h
    refine ⟨?_, ?_, ?_⟩
    · simp [saveJob]
    · intro i hi
      have h4 : ∀ (m : List (String × Job)) (v : Job),
          alGet (alSet m j.id v) i = alGet m i :=
        fun m v => alGet_alSet_ne m j.id i v hi.symm
      have h3 : (applyDefaultTimeout (setMeta (resolve_queue j qn) now
          { j with status := Status.queued })).id ≠ i := by
        rw [applyDefaultTimeout_id]
        simpa [setMeta] using hi.symm
      rw [getJob_saveJob_ne _ _ _ h3, getJob_saveJob_ne _ _ _ h3]
      simp [getJob, saveJob, h4]
    · intro k hk
      rw [getListD_saveJob, getListD_saveJob]
      simp [getListD, saveJob]

def jC2 : Job := ⟨"j", Status.deferred, some "default", none, none, none, some 180, []⟩

def pC2 : Job := ⟨"p", Status.finished, some "default", none, none, none, some 180, []⟩

def cC2 : Job := ⟨"c", Status.deferred, some "default", none, none, none, some 180, ["p"]⟩

def stC2 : RedisState :=
  ⟨[("j", jC2), ("p", pC2), ("c", cC2)], [], ["j"], [], [("j", ["c"])]⟩

def stC2' : RedisState :=
  ⟨[("j", ⟨"j", Status.queued, some "default", some 0, none, none, some 180, []⟩),
    ("p", pC2), ("c", cC2)],
   [("rq:queue:default", ["j"])], [], ["rq:queue:default"], [("j", ["c"])]⟩

/-- Claim C2, counterexample: the deferred job `j` has the reverse-dependent
`c`, whose only parent `p` is `FINISHED` — so after a successful
`release_job(j)` the dependent `c` is fully unblocked — yet `c` keeps status
`DEFERRED` and is not enqueued on the queue named by its origin. -/
theorem claim_C2_counterexample :
    jC2.status = Status.deferred ∧
    getDependents stC2 jC2.id = ["c"] ∧
    release_job (.inl jC2) none 0 stC2 = .ok stC2' ∧
    "c" ∈ getDependents stC2' jC2.id ∧
    getJob stC2' "c" = some cC2 ∧
    fullyUnblocked stC2' cC2 = true ∧
    cC2.status ≠ Status.queued ∧
    "c" ∉ getListD stC2' (queueNamespace ++ originName cC2) := by
  decide

/-- Claim C2, witness: the amended frame property instantiated on the
release of the deferred job `j` with parked dependent `c`. -/
theorem claim_C2_witness :
    release_job (.inl jC2) none 0 stC2 = .ok stC2' ∧
    stC2'.dependents = stC2.dependents ∧
    (∀ i, i ≠ jC2.id → getJob stC2' i = getJob stC2 i) ∧
    (∀ k, k ≠ (resolve_queue jC2 none).key → getListD stC2' k = getListD stC2 k) := by
  have h : release_job (.inl jC2) none 0 stC2 = .ok stC2' := by decide
  exact ⟨h, (claim_C2 jC2 none 0 stC2 stC2' h).1,
    (claim_C2 jC2 none 0 stC2 stC2' h).2.1,
    (claim_C2 jC2 none 0 stC2 stC2' h).2.2⟩

/-- Specification of the `enqueue_dependents` drain loop: with enough fuel,
distinct child IDs and a record behind every child, the loop empties the
reverse-dependency set and appends every child to the invoked queue's list,
rewriting each child's record through `enqueue_job` (which stamps `origin`
and the default timeout but leaves the status untouched) and touching no
other record. -/
theorem enqueueDependentsLoop_spec (deps : List String) :
    ∀ (fuel : Nat) (q : Queue) (now : Nat) (pid : String) (st : RedisState),
    q.async = true →
    getDependents st pid = deps →
    deps.Nodup →
    (∀ d ∈ deps, ∃ jd, getJob st d = some jd ∧ jd.id = d) →
    deps.length < fuel →
    ∃ st', enqueueDependentsLoop fuel q now pid st = .ok st' ∧
      getDependents st' pid = [] ∧
      getListD st' q.key = getListD st q.key ++ deps ∧
      (∀ i, i ∉ deps → getJob st' i = getJob st i) ∧
      (∀ d ∈ deps, ∀ jd, getJob st d = some jd →
        getJob st' d = some (applyDefaultTimeout (setMeta q now jd))) := by
  induction deps with
  | nil =>
      intro fuel q now pid st hq hdeps hnd hrec hfuel
      match fuel, hfuel with
      | fuel + 1, _ =>
        refine ⟨st, ?_, hdeps, by simp, fun i _ => rfl, by simp⟩
        simp only [enqueueDependentsLoop, spopDependents, hdeps]
  | cons d rest ih =>
      intro fuel q now pid st hq hdeps hnd hrec hfuel
      match fuel, hfuel with
      | fuel + 1, hfuel =>
        obtain ⟨hdrest, hndrest⟩ := List.nodup_cons.mp hnd
        obtain ⟨jd, hjd, hjdid⟩ := hrec d (by simp)
        have hspop : spopDependents st pid = (some d, setDependents st pid rest) := by
          simp only [spopDependents, hdeps]
        have hjd1 : getJob (setDependents st pid rest) d = some jd := by
          rw [getJob_setDependents]
          exact hjd
        have hj3id : (applyDefaultTimeout (setMeta q now jd)).id = d := by
          rw [applyDefaultTimeout_id]
          exact hjdid
        -- the state after the child's enqueue_job
        have hgetJob2 : ∀ i, i ≠ d →
            getJob (rpush (saveJob
                { (setDependents st pid rest) with
                queuesKeys := saddL (setDependents st pid rest).queuesKeys q.key }
                (applyDefaultTimeout (setMeta q now jd)))
              q.key (applyDefaultTimeout (setMeta q now jd)).id) i =
            getJob st i := by
          intro i hi
          rw [getJob_rpush, getJob_saveJob_ne _ _ _ (by rw [hj3id]; exact Ne.symm hi)]
          have : getJob { (setDependents st pid rest) with
                queuesKeys := saddL (setDependents st pid rest).queuesKeys q.key } i =
              getJob (setDependents st pid rest) i := rfl
          rw [this, getJob_setDependents]
        have hdeps2 : getDependents (rpush (saveJob
            { (setDependents st pid rest) with
                queuesKeys := saddL (setDependents st pid rest).queuesKeys q.key }
            (applyDefaultTimeout (setMeta q now jd)))
            q.key (applyDefaultTimeout (setMeta q now jd)).id) pid = rest := by
          rw [getDependents_rpush, getDependents_saveJob]
          have : getDependents { (setDependents st pid rest) with
                queuesKeys := saddL (setDependents st pid rest).queuesKeys q.key } pid =
              getDependents (setDependents st pid rest) pid := rfl
          rw [this, getDependents_setDependents_self]
        have hrec2 : ∀ d' ∈ rest, ∃ jd', getJob (rpush (saveJob
            { (setDependents st pid rest) with
                queuesKeys := saddL (setDependents st pid rest).queuesKeys q.key }
            (applyDefaultTimeout (setMeta q now jd)))
            q.key (applyDefaultTimeout (setMeta q now jd)).id) d' = some jd' ∧
            jd'.id = d' := by
          intro d' hd'
          obtain ⟨jd', hjd', hjdid'⟩ := hrec d' (by simp [hd'])
          exact ⟨jd', by rw [hgetJob2 d' (fun hc => hdrest (hc ▸ hd'))]; exact hjd',
            hjdid'⟩
        have hlist2 : getListD (rpush (saveJob
            { (setDependents st pid rest) with
                queuesKeys := saddL (setDependents st pid rest).queuesKeys q.key }
            (applyDefaultTimeout (setMeta q now jd)))
            q.key (applyDefaultTimeout (setMeta q now jd)).id) q.key =
            getListD st q.key ++ [d] := by
          rw [getListD_rpush_self, getListD_saveJob]
          have : getListD { (setDependents st pid rest) with
                queuesKeys := saddL (setDependents st pid rest).queuesKeys q.key } q.key =
              getListD (setDependents st pid rest) q.key := rfl
          rw [this, getListD_setDependents, hj3id]
        obtain ⟨st', hloop, hdeps', hlist', hframe', hupd'⟩ :=
          ih fuel q now pid _ hq hdeps2 hndrest hrec2 (by
            simpa using Nat.lt_of_succ_lt_succ hfuel)
        refine ⟨st', ?_, hdeps', ?_, ?_, ?_⟩
        · simp only [enqueueDependentsLoop, hspop, hjd1,
            enqueue_job_async_eq _ hq]
          exact hloop
        · rw [hlist', hlist2, List.append_assoc]
          rfl
        · intro i hi
          have hid : i ≠ d := fun hc => hi (by simp [hc])
          have hirest : i ∉ rest := fun hc => hi (by simp [hc])
          rw [hframe' i hirest]
          exact hgetJob2 i hid
        · intro d' hd' jd' hjd'
          rcases List.mem_cons.mp hd' with hcase | hcase
          · subst hcase
            have hjdeq : jd' = jd := by
              rw [hjd] at hjd'
              exact (Option.some.injEq _ _ ▸ hjd').symm
            subst hjdeq
            rw [hframe' d' hdrest]
            rw [getJob_rpush]
            exact getJob_saveJob_of_id _ _ _ hj3id
          · have hne : d' ≠ d := fun hc => hdrest (hc ▸ hcase)
            exact hupd' d' hcase jd' (by rw [hgetJob2 d' hne]; exact hjd')

/-- Claim C1 (amended): `enqueue_dependents` drains the parent's
reverse-dependency set and enqueues EVERY drained child, via `enqueue_job`,
on the queue it was invoked on: no status of any other parent is consulted,
the child's status is left unchanged (in particular it is not set to
`QUEUED`), and the child lands on the invoked queue's FIFO list, whose name
also overwrites the child's `origin`. -/
theorem claim_C1 (q : Queue) (now : Nat) (parent : Job) (st : RedisState)
    (deps : List String)
    (hq : q.async = true)
    (hdeps : getDependents st parent.id = deps)
    (hnd : deps.Nodup)
    (hrec : ∀ d ∈ deps, ∃ jd, getJob st d = some jd ∧ jd.id = d) :
    ∃ st', q.enqueue_dependents now parent st = .ok st' ∧
      getDependents st' parent.id = [] ∧
      getListD st' q.key = getListD st q.key ++ deps ∧
      (∀ i, i ∉ deps → getJob st' i = getJob st i) ∧
      (∀ d ∈ deps, ∀ jd, getJob st d = some jd →
        getJob st' d = some (applyDefaultTimeout (setMeta q now jd))) := by
  have hfuel : deps.length < (getDependents st parent.id).length + 1 := by
    rw [hdeps]
    exact Nat.lt_succ_self _
  exact enqueueDependentsLoop_spec deps _ q now parent.id st hq hdeps hnd hrec hfuel

def qC1 : Queue := ⟨"default", none, true⟩

def pC1 : Job := ⟨"P", Status.finished, some "default", none, none, none, some 180, []⟩

def oC1 : Job := ⟨"O", Status.started, some "default", none, none, none, some 180, []⟩

def cC1 : Job := ⟨"C", Status.deferred, some "default", none, none, none, some 180, ["P", "O"]⟩

def stC1 : RedisState :=
  ⟨[("P", pC1), ("O", oC1), ("C", cC1)], [], [], [], [("P", ["C"])]⟩

def cC1' : Job := ⟨"C", Status.deferred, some "default", some 0, none, none, some 180, ["P", "O"]⟩

def stC1' : RedisState :=
  ⟨[("P", pC1), ("O", oC1), ("C", cC1')],
   [("rq:queue:default", ["C"])], [], ["rq:queue:default"], []⟩

/-- Claim C1, counterexample: the child `C` depends on the finished parent
`P` and on the other parent `O`, whose status `STARTED` is not `FINISHED`;
draining `P`'s reverse-dependency set nonetheless enqueues `C` on the
invoked queue, and `C`'s status remains `DEFERRED` rather than `QUEUED`. -/
theorem claim_C1_counterexample :
    "O" ∈ cC1.dependencies ∧ "O" ≠ "P" ∧
    getJob stC1 "O" = some oC1 ∧ oC1.status ≠ Status.finished ∧
    getDependents stC1 pC1.id = ["C"] ∧
    qC1.enqueue_dependents 0 pC1 stC1 = .ok stC1' ∧
    "C" ∈ getListD stC1' qC1.key ∧
    getJob stC1' "C" = some cC1' ∧
    cC1'.status ≠ Status.queued := by
  decide

/-- Claim C1, witness: the amended drain theorem instantiated on the parent
`P` with the single parked child `C`. -/
theorem claim_C1_witness :
    qC1.async = true ∧ getDependents stC1 pC1.id = ["C"] ∧
    (["C"] : List String).Nodup ∧
    (∃ st', qC1.enqueue_dependents 0 pC1 stC1 = .ok st' ∧
      getDependents st' pC1.id = [] ∧
      getListD st' qC1.key = getListD stC1 qC1.key ++ ["C"] ∧
      (∀ i, i ∉ ["C"] → getJob st' i = getJob stC1 i) ∧
      (∀ d ∈ ["C"], ∀ jd, getJob stC1 d = some jd →
        getJob st' d = some (applyDefaultTimeout (setMeta qC1 0 jd)))) :=
  ⟨rfl, by decide, by decide,
    claim_C1 qC1 0 pC1 stC1 ["C"] rfl (by decide) (by decide)
      (by
        intro d hd
        simp only [List.mem_singleton] at hd
        subst hd
        exact ⟨cC1, rfl, rfl⟩)⟩

end RQ
